import Mathlib

/-!
Verification of the scheduling engine of `mqtt-actor` (src/script.rs, src/mqtt.rs).

Shallow embedding conventions:
* `chrono::DateTime<FixedOffset>` instants are modelled as `Int` (chrono instants
  are totally ordered; only ordering and duration addition are used by the code).
* `chrono::Duration` values built by `Duration::seconds` are modelled as `Int` seconds.
* The ambient wall clock (`now()` in src/script.rs) is passed explicitly: each
  operation that reads the clock takes the instant(s) it would observe as parameters.
* CSV row deserialisation is modelled by giving the loader the already-deserialised
  rows as `Option Message` values: `none` is a row whose structural parse or
  timestamp resolution failed (serde returns `Err`, dropped by the `filter_map`),
  `some m` is a successfully deserialised row.
* The `glob` call in `Script::reload` is modelled by an `Except` value (the `?`
  propagation) holding per-path entries; a path error or a failed `File::open`
  each yield an entry that the `filter_map` skips.
* Rust's stable in-place `sort_by` is modelled by `List.mergeSort` (stable) over
  the Bool comparison `msgLe a b = (msgCmp a b ≠ .gt)` derived from the source's
  `Ordering`-valued comparator.
-/

namespace MqttActor

/-- Timestamp enum from src/script.rs: `Absolute(DateTime<FixedOffset>)` or
`Relative(Duration)`. -/
inductive Timestamp where
  | Absolute (t : Int)
  | Relative (d : Int)
deriving Repr, DecidableEq

/-- Message struct from src/script.rs: timestamp, topic, payload. -/
structure Message where
  timestamp : Timestamp
  topic : String
  message : String
deriving Repr, DecidableEq

/-- Timestamp.from_str from src/script.rs. The three textual parsers
(`DateTime::parse_from_rfc2822`, `DateTime::parse_from_rfc3339`, `str::parse::<i64>`)
are library functions outside this repository, so they are taken as oracle
parameters returning `Option`; the function itself is the source's cascade of
early returns: RFC2822 first, then RFC3339, then bare integer seconds, else error. -/
def Timestamp.from_str (rfc2822 rfc3339 parseInt : String → Option Int)
    (s : String) : Except String Timestamp :=
  match rfc2822 s with
  | some t => .ok (.Absolute t)
  | none =>
    match rfc3339 s with
    | some t => .ok (.Absolute t)
    | none =>
      match parseInt s with
      | some n => .ok (.Relative n)
      | none => .error s

/-- One step of the resolving `map` closure in `load_messages` (src/script.rs
lines 118-129): an `Absolute` row is kept and resets the running `offset_time`;
a `Relative` row becomes `Absolute (offset_time + d)` and that instant becomes
the new `offset_time`. Returns the emitted message and the updated offset. -/
def resolveStep (offset_time : Int) (m : Message) : Message × Int :=
  match m.timestamp with
  | .Absolute msg_time => (m, msg_time)
  | .Relative msg_time =>
      let t := offset_time + msg_time
      ({ m with timestamp := .Absolute t }, t)

/-- The stateful `map` over the successfully parsed rows, threading `offset_time`. -/
def resolveAll (offset_time : Int) : List Message → List Message
  | [] => []
  | m :: ms =>
      let p := resolveStep offset_time m
      p.1 :: resolveAll p.2 ms

/-- load_messages from src/script.rs: `t0` is the value of `now()` read at the
top of the call; `rows` are the deserialisation results of the CSV rows in file
order (`none` = parse failure, dropped by the `filter_map` with a warning);
the surviving rows are resolved sequentially. -/
def load_messages (t0 : Int) (rows : List (Option Message)) : List Message :=
  resolveAll t0 (rows.filterMap id)

/-- The comparator closure passed to `sort_by` in `Script::reload`
(src/script.rs lines 176-186): compare absolute instants; any pair in which
either side is not `Absolute` is `Ordering::Equal`. -/
def msgCmp (a b : Message) : Ordering :=
  match a.timestamp with
  | .Absolute ta =>
      match b.timestamp with
      | .Absolute tb => compare ta tb
      | .Relative _ => .eq
  | .Relative _ => .eq

/-- Bool form of the comparator for the stable-sort model: `a` may precede `b`
exactly when the comparator does not order `a` strictly after `b`. -/
def msgLe (a b : Message) : Bool := msgCmp a b ≠ .gt

/-- Script struct from src/script.rs. -/
structure Script where
  source_dir : String
  source_file_delimiter : Nat
  messages : List Message
  last_poll_time : Int
deriving Repr, DecidableEq

/-- One entry of the iterator produced by `glob(...)` inside `Script::reload`:
a path error (`Err(_)`, skipped), a path whose `File::open(path).ok()?` failed
(skipped), or an opened file together with the instant `now()` read when its
`load_messages` call starts and its deserialised rows. -/
inductive GlobEntry where
  | errPath
  | openFail
  | file (t0 : Int) (rows : List (Option Message))
deriving Repr, DecidableEq

/-- The `filter_map` body of `Script::reload` (src/script.rs lines 163-169). -/
def loadEntry : GlobEntry → Option (List Message)
  | .errPath => none
  | .openFail => none
  | .file t0 rows => some (load_messages t0 rows)

/-- All messages collected from the glob entries, before sorting. -/
def loadedMessages (entries : List GlobEntry) : List Message :=
  (entries.filterMap loadEntry).flatten

/-- Script::reload from src/script.rs. The `glob(..)?` call is modelled by
`globResult`: on `Err` the error propagates and the script is untouched; on
`Ok` the collected, resolved messages replace `self.messages` and are sorted
with the stable `sort_by` comparator. Returns the `Result` together with the
script state after the call. -/
def Script.reload (globResult : Except String (List GlobEntry)) (s : Script) :
    Except String Unit × Script :=
  match globResult with
  | .error e => (.error e, s)
  | .ok entries =>
      (.ok (), { s with messages := (loadedMessages entries).mergeSort msgLe })

/-- Script::poll from src/script.rs: `endTime` is the `now()` read at the start
of the call; returns the cloned messages whose absolute timestamp lies in
`(last_poll_time, endTime]` and the script state with `last_poll_time`
advanced to `endTime`. -/
def Script.poll (endTime : Int) (s : Script) : List Message × Script :=
  let start := s.last_poll_time
  let msgs := s.messages.filterMap (fun m =>
    match m.timestamp with
    | .Absolute t => if start < t ∧ t ≤ endTime then some m else none
    | .Relative _ => none)
  (msgs, { s with last_poll_time := endTime })

/-- A sequence of successive `poll` calls at the given instants, threading the
script state (the caller in src/processing.rs polls once per `Tick`). -/
def pollSeq (s : Script) : List Int → List (List Message) × Script
  | [] => ([], s)
  | e :: es =>
      let p := s.poll e
      let q := pollSeq p.2 es
      (p.1 :: q.1, q.2)

/-- Membership test of an absolute instant in the half-open poll window. -/
def inWindow (start endTime : Int) (m : Message) : Bool :=
  match m.timestamp with
  | .Absolute t => decide (start < t ∧ t ≤ endTime)
  | .Relative _ => false

/-- Resolved instants of a chain of relative offsets: cumulative partial sums
starting from a reference instant (spec section 4.2 phrasing, used to state the
claim about `load_messages`). -/
def cumulativeTimes (t0 : Int) : List Int → List Int
  | [] => []
  | d :: ds => (t0 + d) :: cumulativeTimes (t0 + d) ds

/-- Ascending absolute-timestamp order of a message sequence. -/
def ascendingByTs (l : List Message) : Prop :=
  l.Pairwise (fun a b => ∀ ta tb,
    a.timestamp = .Absolute ta → b.timestamp = .Absolute tb → ta ≤ tb)

/-- Event enum from src/main.rs. -/
inductive Event where
  | Tick
  | ReloadScript
  | SendMessage (msg : Message)
  | Exit
deriving Repr, DecidableEq

/-- Observable side effects of the transport publisher task in src/mqtt.rs:
a publish attempt of a message, one reconnection attempt (`c.reconnect()`),
the fixed sleep between attempts (`tokio::time::sleep(Duration::from_secs(1))`),
and broadcasting `Event::Exit` on the bus. -/
inductive Action where
  | publishAttempt (topic payload : String)
  | reconnectAttempt (i : Nat)
  | sleepSeconds (n : Nat)
  | sendExit
deriving Repr, DecidableEq

/-- Outcome of one `try_publish` call together with its delivery-token wait
(src/mqtt.rs lines 36-49): delivered, queued-but-wait-failed (only logged), or
failed at the creating/queuing stage (the branch that triggers reconnection). -/
inductive PublishOutcome where
  | delivered
  | waitFailed
  | queueFailed
deriving Repr, DecidableEq

/-- The `for i in 0..10` loop body of try_reconnect (src/mqtt.rs lines 58-70),
recursing over the remaining attempt indices. `outcome i = true` means the
`c.reconnect()` call of attempt `i` succeeds. On success the loop returns `Ok`
immediately (before any sleep); on failure it logs, sleeps one second and
continues. Returns the emitted actions and whether reconnection succeeded. -/
def tryReconnectLoop (outcome : Nat → Bool) : List Nat → List Action × Bool
  | [] => ([], false)
  | i :: rest =>
      if outcome i then ([.reconnectAttempt i], true)
      else
        let r := tryReconnectLoop outcome rest
        (.reconnectAttempt i :: .sleepSeconds 1 :: r.1, r.2)

/-- try_reconnect from src/mqtt.rs: at most ten attempts, indices 0 through 9. -/
def try_reconnect (outcome : Nat → Bool) : List Action × Bool :=
  tryReconnectLoop outcome (List.range 10)

/-- The `Event::SendMessage` branch of the publisher loop (src/mqtt.rs lines
35-49): one publish attempt; on a queue failure run `try_reconnect` and, if it
fails, broadcast `Exit`. The message is never published a second time. -/
def handleSend (pubres : PublishOutcome) (outcome : Nat → Bool)
    (topic payload : String) : List Action :=
  match pubres with
  | .delivered => [.publishAttempt topic payload]
  | .waitFailed => [.publishAttempt topic payload]
  | .queueFailed =>
      let r := try_reconnect outcome
      .publishAttempt topic payload ::
        (r.1 ++ (if r.2 then [] else [.sendExit]))

/-- One iteration of the publisher receive loop (src/mqtt.rs lines 29-52):
the actions performed for the received event and whether the loop continues. -/
def runStep (pubres : PublishOutcome) (outcome : Nat → Bool) :
    Event → List Action × Bool
  | .Exit => ([], false)
  | .SendMessage m => (handleSend pubres outcome m.topic m.message, true)
  | _ => ([], true)

/-- Test of being a publish attempt, used to count publish attempts. -/
def isPublish : Action → Bool
  | .publishAttempt _ _ => true
  | _ => false

/-- Test of being a reconnection attempt. -/
def isReconnect : Action → Bool
  | .reconnectAttempt _ => true
  | _ => false

/-- Sort key of a message: its absolute instant. On `Relative` entries (which
cannot occur after resolution) it falls back to the raw offset; it is only used
through `keyLe` on all-`Absolute` lists, where the fallback is irrelevant. -/
def absKey (m : Message) : Int :=
  match m.timestamp with
  | .Absolute t => t
  | .Relative d => d

/-- Total, transitive comparison used to reason about the stable sort. On lists
whose members all carry `Absolute` timestamps it coincides with `msgLe`. -/
def keyLe (a b : Message) : Bool := decide (absKey a ≤ absKey b)

/-! ### Basic lemmas about poll -/

theorem inWindow_iff (a b : Int) (m : Message) :
    inWindow a b m = true ↔ ∃ t, m.timestamp = .Absolute t ∧ a < t ∧ t ≤ b := by
  cases h : m.timestamp with
  | Absolute t =>
      simp only [inWindow, h, decide_eq_true_eq]
      constructor
      · intro hw
        exact ⟨t, rfl, hw⟩
      · rintro ⟨u, hu, h1, h2⟩
        cases hu
        exact ⟨h1, h2⟩
  | Relative d =>
      simp only [inWindow, h]
      constructor
      · intro hw
        cases hw
      · rintro ⟨u, hu, -⟩
        cases hu

theorem poll_fst (s : Script) (e : Int) :
    (s.poll e).1 = s.messages.filter (inWindow s.last_poll_time e) := by
  show s.messages.filterMap _ = _
  induction s.messages with
  | nil => rfl
  | cons m ms ih =>
      rw [List.filterMap_cons, List.filter_cons]
      cases h : m.timestamp with
      | Absolute t =>
          simp only [h]
          by_cases hc : s.last_poll_time < t ∧ t ≤ e
          · have hw : inWindow s.last_poll_time e m = true := by
              rw [inWindow_iff]
              exact ⟨t, h, hc.1, hc.2⟩
            rw [if_pos hc]
            simp [hw, ih]
          · have hw : ¬ inWindow s.last_poll_time e m = true := by
              rw [inWindow_iff]
              rintro ⟨u, hu, h1, h2⟩
              rw [h] at hu
              cases hu
              exact hc ⟨h1, h2⟩
            rw [if_neg hc]
            simp [hw, ih]
      | Relative d => simp_all [inWindow]

theorem poll_snd (s : Script) (e : Int) :
    (s.poll e).2 = { s with last_poll_time := e } := rfl

theorem mem_poll (s : Script) (e : Int) (m : Message) :
    m ∈ (s.poll e).1 ↔
      m ∈ s.messages ∧ ∃ t, m.timestamp = .Absolute t ∧ s.last_poll_time < t ∧ t ≤ e := by
  rw [poll_fst, List.mem_filter, inWindow_iff]

theorem ascendingByTs_filter (p : Message → Bool) (l : List Message)
    (h : ascendingByTs l) : ascendingByTs (l.filter p) :=
  List.Pairwise.sublist (List.filter_sublist l) h

/-! ### Lemmas about sequences of polls -/

theorem pollSeq_fst_cons (s : Script) (e : Int) (es : List Int) :
    (pollSeq s (e :: es)).1 = (s.poll e).1 :: (pollSeq (s.poll e).2 es).1 := rfl

theorem resolveAll_cons (t0 : Int) (x : Message) (xs : List Message) :
    resolveAll t0 (x :: xs) =
      (resolveStep t0 x).1 :: resolveAll (resolveStep t0 x).2 xs := rfl

theorem pollSeq_fst (s : Script) (ends : List Int) :
    (pollSeq s ends).1 =
      ((s.last_poll_time :: ends).zip ends).map
        (fun w => s.messages.filter (inWindow w.1 w.2)) := by
  induction ends generalizing s with
  | nil => rfl
  | cons e es ih =>
      show (s.poll e).1 :: (pollSeq (s.poll e).2 es).1 = _
      rw [poll_fst, ih, poll_snd]
      rfl

/-- Every message returned by any poll of the sequence has an absolute
timestamp strictly later than the initial cursor, provided the poll instants
follow the cursor in chronological order. -/
theorem pollSeq_mem_gt (s : Script) (ends : List Int)
    (hchain : (s.last_poll_time :: ends).Pairwise (· ≤ ·)) :
    ∀ r ∈ (pollSeq s ends).1, ∀ m ∈ r,
      ∃ t, m.timestamp = .Absolute t ∧ s.last_poll_time < t := by
  induction ends generalizing s with
  | nil =>
      intro r hr
      cases hr
  | cons e es ih =>
      intro r hr m hm
      have hle : s.last_poll_time ≤ e := (List.pairwise_cons.mp hchain).1 e (by simp)
      rw [pollSeq_fst_cons] at hr
      rcases List.mem_cons.mp hr with rfl | hr
      · rw [poll_fst] at hm
        rcases (List.mem_filter.mp hm).2 |> (inWindow_iff _ _ _).mp with ⟨t, hts, h1, h2⟩
        exact ⟨t, hts, h1⟩
      · have hchain2 : ((s.poll e).2.last_poll_time :: es).Pairwise (· ≤ ·) := by
          rw [poll_snd]
          exact (List.pairwise_cons.mp hchain).2
        rcases ih (s.poll e).2 hchain2 r hr m hm with ⟨t, hts, hgt⟩
        rw [poll_snd] at hgt
        exact ⟨t, hts, lt_of_le_of_lt hle hgt⟩

/-- A message timestamped at or before every poll instant and at or before the
cursor is returned by no poll of the sequence. -/
theorem pollSeq_stale (s : Script) (ends : List Int) (m : Message) (t : Int)
    (hts : m.timestamp = .Absolute t)
    (hcur : t ≤ s.last_poll_time)
    (hends : ∀ e ∈ ends, t ≤ e) :
    ∀ r ∈ (pollSeq s ends).1, m ∉ r := by
  induction ends generalizing s with
  | nil =>
      intro r hr
      cases hr
  | cons e es ih =>
      intro r hr hm
      rw [pollSeq_fst_cons] at hr
      rcases List.mem_cons.mp hr with rfl | hr
      · rw [poll_fst] at hm
        rcases (List.mem_filter.mp hm).2 |> (inWindow_iff _ _ _).mp with ⟨u, hu, h1, h2⟩
        rw [hts] at hu
        cases hu
        exact absurd hcur (not_le.mpr h1)
      · have hcur2 : t ≤ (s.poll e).2.last_poll_time := by
          rw [poll_snd]
          exact hends e (by simp)
        exact ih (s.poll e).2 hcur2 (fun x hx => hends x (by simp [hx])) r hr hm

/-! ### Lemmas about timestamp resolution -/

theorem resolveAll_all_absolute (t0 : Int) (ms : List Message) :
    ∀ m ∈ resolveAll t0 ms, ∃ t, m.timestamp = .Absolute t := by
  induction ms generalizing t0 with
  | nil =>
      intro m hm
      cases hm
  | cons x xs ih =>
      intro m hm
      rw [resolveAll_cons] at hm
      rcases List.mem_cons.mp hm with rfl | hm
      · cases h : x.timestamp with
        | Absolute t =>
            refine ⟨t, ?_⟩
            simp [resolveStep, h]
        | Relative d =>
            refine ⟨t0 + d, ?_⟩
            simp [resolveStep, h]
      · cases h : x.timestamp with
        | Absolute t =>
            have : m ∈ resolveAll t xs := by
              simpa [resolveStep, h] using hm
            exact ih t m this
        | Relative d =>
            have : m ∈ resolveAll (t0 + d) xs := by
              simpa [resolveStep, h] using hm
            exact ih (t0 + d) m this

theorem load_messages_all_absolute (t0 : Int) (rows : List (Option Message)) :
    ∀ m ∈ load_messages t0 rows, ∃ t, m.timestamp = .Absolute t :=
  resolveAll_all_absolute t0 (rows.filterMap id)

theorem loadedMessages_all_absolute (entries : List GlobEntry) :
    ∀ m ∈ loadedMessages entries, ∃ t, m.timestamp = .Absolute t := by
  intro m hm
  rcases List.mem_flatten.mp hm with ⟨l, hl, hml⟩
  rcases List.mem_filterMap.mp hl with ⟨entry, -, hload⟩
  cases entry with
  | errPath => cases hload
  | openFail => cases hload
  | file t0 rows =>
      cases hload
      exact load_messages_all_absolute t0 rows m hml

/-! ### Lemmas about the stable sort in reload -/

theorem keyLe_trans : ∀ a b c : Message, keyLe a b → keyLe b c → keyLe a c := by
  intro a b c hab hbc
  simp only [keyLe, decide_eq_true_eq] at *
  exact le_trans hab hbc

theorem keyLe_total : ∀ a b : Message, keyLe a b || keyLe b a := by
  intro a b
  simp only [keyLe]
  rcases le_total (absKey a) (absKey b) with h | h <;> simp [h]

theorem msgLe_eq_keyLe (a b : Message) (ta tb : Int)
    (ha : a.timestamp = .Absolute ta) (hb : b.timestamp = .Absolute tb) :
    msgLe a b = keyLe a b := by
  simp only [msgLe, msgCmp, keyLe, absKey, ha, hb]
  rcases lt_trichotomy ta tb with h | h | h
  · simp [compare_lt_iff_lt.mpr h, le_of_lt h]
  · simp [compare_eq_iff_eq.mpr h, le_of_eq h]
  · simp [compare_gt_iff_gt.mpr h, not_le.mpr h]

theorem mergeSort_msgLe_eq_keyLe (l : List Message)
    (habs : ∀ m ∈ l, ∃ t, m.timestamp = .Absolute t) :
    l.mergeSort msgLe = l.mergeSort keyLe := by
  have h := List.map_mergeSort (r := msgLe) (s := keyLe) (f := id) (l := l) ?_
  · simpa using h
  · intro a ha b hb
    rcases habs a ha with ⟨ta, hta⟩
    rcases habs b hb with ⟨tb, htb⟩
    exact msgLe_eq_keyLe a b ta tb hta htb

theorem reload_ok_messages (entries : List GlobEntry) (s : Script) :
    (Script.reload (.ok entries) s).2.messages =
      (loadedMessages entries).mergeSort msgLe := rfl

/-! ### Claim theorems -/

/-- Claim C1: for every Script state (satisfying the timeline invariant that
`messages` is in ascending absolute-timestamp order, which reload establishes)
and every call to poll, the returned sequence consists of exactly those
messages of the timeline whose absolute timestamp `t` satisfies
`last_poll_time < t` and `t ≤ endTime`, where `endTime` is the instant read at
the start of the call; the returned messages are in ascending timestamp order;
and after the call `last_poll_time` equals `endTime`. -/
theorem C1_poll_window (s : Script) (endTime : Int)
    (hsorted : ascendingByTs s.messages) :
    ((s.poll endTime).1 = s.messages.filter (inWindow s.last_poll_time endTime)) ∧
    (∀ m, m ∈ (s.poll endTime).1 ↔
      m ∈ s.messages ∧ ∃ t, m.timestamp = .Absolute t ∧
        s.last_poll_time < t ∧ t ≤ endTime) ∧
    ascendingByTs (s.poll endTime).1 ∧
    (s.poll endTime).2.last_poll_time = endTime := by
  refine ⟨poll_fst s endTime, mem_poll s endTime, ?_, ?_⟩
  · rw [poll_fst]
    exact ascendingByTs_filter _ _ hsorted
  · rw [poll_snd]

/-- Witness for C1 at a concrete script: two messages at instants 1 and 5,
cursor at 0, polling at instant 3 returns exactly the first message and moves
the cursor to 3. -/
theorem C1_poll_window_witness :
    (Script.poll 3
      { source_dir := "scripts", source_file_delimiter := 124,
        messages := [⟨.Absolute 1, "a", "x"⟩, ⟨.Absolute 5, "b", "y"⟩],
        last_poll_time := 0 }).1 = [⟨.Absolute 1, "a", "x"⟩] ∧
    (Script.poll 3
      { source_dir := "scripts", source_file_delimiter := 124,
        messages := [⟨.Absolute 1, "a", "x"⟩, ⟨.Absolute 5, "b", "y"⟩],
        last_poll_time := 0 }).2.last_poll_time = 3 := by
  have hs : ascendingByTs
      ([⟨.Absolute 1, "a", "x"⟩, ⟨.Absolute 5, "b", "y"⟩] : List Message) := by
    refine List.Pairwise.cons ?_ (List.pairwise_singleton _ _)
    intro b hb ta tb hta htb
    rw [List.mem_singleton] at hb
    subst hb
    cases hta
    cases htb
    decide
  have h := C1_poll_window
    { source_dir := "scripts", source_file_delimiter := 124,
      messages := [⟨.Absolute 1, "a", "x"⟩, ⟨.Absolute 5, "b", "y"⟩],
      last_poll_time := 0 } 3 hs
  exact ⟨h.1.trans (by decide), h.2.2.2⟩

/-- Claim C10: poll leaves the `messages` sequence itself unchanged, as well as
`source_dir` and `source_file_delimiter`; the only field it modifies is
`last_poll_time`, and every returned message is a member of the timeline
(a copy, not a removal). -/
theorem C10_poll_frame (s : Script) (endTime : Int) :
    (s.poll endTime).2 = { s with last_poll_time := endTime } ∧
    (s.poll endTime).2.messages = s.messages ∧
    (s.poll endTime).2.source_dir = s.source_dir ∧
    (s.poll endTime).2.source_file_delimiter = s.source_file_delimiter ∧
    (s.poll endTime).2.last_poll_time = endTime ∧
    ∀ m ∈ (s.poll endTime).1, m ∈ s.messages := by
  refine ⟨rfl, rfl, rfl, rfl, rfl, ?_⟩
  intro m hm
  exact ((mem_poll s endTime m).mp hm).1

/-- Witness for C10 at a concrete script: polling at instant 7 only moves the
cursor, and the returned message at instant 1 is a member of the unchanged
timeline. -/
theorem C10_poll_frame_witness :
    (Script.poll 7
      { source_dir := "scripts", source_file_delimiter := 124,
        messages := [⟨.Absolute 1, "a", "x"⟩],
        last_poll_time := 0 }).2 =
      { source_dir := "scripts", source_file_delimiter := 124,
        messages := [⟨.Absolute 1, "a", "x"⟩],
        last_poll_time := 7 } ∧
    (⟨.Absolute 1, "a", "x"⟩ : Message) ∈
      ({ source_dir := "scripts", source_file_delimiter := 124,
         messages := [⟨.Absolute 1, "a", "x"⟩],
         last_poll_time := 0 } : Script).messages := by
  have h := C10_poll_frame
    { source_dir := "scripts", source_file_delimiter := 124,
      messages := [⟨.Absolute 1, "a", "x"⟩],
      last_poll_time := 0 } 7
  exact ⟨h.1, h.2.2.2.2.2 ⟨.Absolute 1, "a", "x"⟩ (by decide)⟩

/-- Claim C2: over a sequence of successive polls on one fixed timeline, each
call's window starts exactly where the previous call's window ended (the first
conjunct describes every result as the filter of the adjacent window, with no
gap); provided the poll instants are chronological, results are pairwise
disjoint, so every message of the timeline is returned by at most one poll
call, and the concatenation of all results in the order returned is in
ascending timestamp order. -/
theorem C2_successive_polls (s : Script) (ends : List Int)
    (hsorted : ascendingByTs s.messages)
    (hchain : ends.Pairwise (· ≤ ·)) :
    ((pollSeq s ends).1 =
      ((s.last_poll_time :: ends).zip ends).map
        (fun w => s.messages.filter (inWindow w.1 w.2))) ∧
    (pollSeq s ends).1.Pairwise (fun r1 r2 => ∀ m, m ∈ r1 → m ∈ r2 → False) ∧
    ascendingByTs (pollSeq s ends).1.flatten := by
  refine ⟨pollSeq_fst s ends, ?_, ?_⟩
  · induction ends generalizing s with
    | nil => exact List.Pairwise.nil
    | cons e es ih =>
        rw [pollSeq_fst_cons]
        refine List.Pairwise.cons ?_ ?_
        · intro r hr m hm1 hm2
          rcases (mem_poll s e m).mp hm1 with ⟨-, t, hts, -, hte⟩
          have hchain2 : ((s.poll e).2.last_poll_time :: es).Pairwise (· ≤ ·) := by
            rw [poll_snd]
            exact hchain
          rcases pollSeq_mem_gt (s.poll e).2 es hchain2 r hr m hm2 with ⟨u, hu, hgt⟩
          rw [hts] at hu
          cases hu
          rw [poll_snd] at hgt
          exact absurd hte (not_le.mpr hgt)
        · have hsorted2 : ascendingByTs (s.poll e).2.messages := by
            rw [poll_snd]
            exact hsorted
          exact ih (s.poll e).2 hsorted2 (List.pairwise_cons.mp hchain).2
  · induction ends generalizing s with
    | nil => exact List.Pairwise.nil
    | cons e es ih =>
        rw [pollSeq_fst_cons, List.flatten_cons]
        unfold ascendingByTs
        rw [List.pairwise_append]
        refine ⟨?_, ?_, ?_⟩
        · rw [poll_fst]
          exact ascendingByTs_filter _ _ hsorted
        · have hsorted2 : ascendingByTs (s.poll e).2.messages := by
            rw [poll_snd]
            exact hsorted
          exact ih (s.poll e).2 hsorted2 (List.pairwise_cons.mp hchain).2
        · intro a ha b hb ta tb hta htb
          rcases (mem_poll s e a).mp ha with ⟨-, t, hts, -, hte⟩
          rw [hta] at hts
          cases hts
          rcases List.mem_flatten.mp hb with ⟨r, hr, hbr⟩
          have hchain2 : ((s.poll e).2.last_poll_time :: es).Pairwise (· ≤ ·) := by
            rw [poll_snd]
            exact hchain
          rcases pollSeq_mem_gt (s.poll e).2 es hchain2 r hr b hbr with ⟨u, hu, hgt⟩
          rw [htb] at hu
          cases hu
          rw [poll_snd] at hgt
          exact le_of_lt (lt_of_le_of_lt hte hgt)

/-- Witness for C2 at a concrete timeline: messages at instants 1 and 5,
cursor at 0, polled at instants 2 then 6, yield exactly one message each. -/
theorem C2_successive_polls_witness :
    (pollSeq
      { source_dir := "scripts", source_file_delimiter := 124,
        messages := [⟨.Absolute 1, "a", "x"⟩, ⟨.Absolute 5, "b", "y"⟩],
        last_poll_time := 0 } [2, 6]).1 =
      [[⟨.Absolute 1, "a", "x"⟩], [⟨.Absolute 5, "b", "y"⟩]] := by
  have hs : ascendingByTs
      ([⟨.Absolute 1, "a", "x"⟩, ⟨.Absolute 5, "b", "y"⟩] : List Message) := by
    refine List.Pairwise.cons ?_ (List.pairwise_singleton _ _)
    intro b hb ta tb hta htb
    rw [List.mem_singleton] at hb
    subst hb
    cases hta
    cases htb
    decide
  have h := C2_successive_polls
    { source_dir := "scripts", source_file_delimiter := 124,
      messages := [⟨.Absolute 1, "a", "x"⟩, ⟨.Absolute 5, "b", "y"⟩],
      last_poll_time := 0 } [2, 6] hs (by decide)
  exact h.1.trans (by decide)

/-- Claim C3: reload, whether it succeeds or fails, leaves `last_poll_time`
unchanged, and consequently a message of the newly loaded timeline whose
absolute timestamp is at or before the preserved cursor is returned by no
subsequent poll (for polls at instants no earlier than the cursor, as the
advancing wall clock supplies them). -/
theorem C3_reload_preserves_cursor (s : Script)
    (g : Except String (List GlobEntry)) (ends : List Int)
    (hends : ∀ e ∈ ends, s.last_poll_time ≤ e) :
    ((Script.reload g s).2.last_poll_time = s.last_poll_time) ∧
    (∀ m t, m ∈ (Script.reload g s).2.messages → m.timestamp = .Absolute t →
      t ≤ s.last_poll_time →
      ∀ r ∈ (pollSeq (Script.reload g s).2 ends).1, m ∉ r) := by
  have hcur : (Script.reload g s).2.last_poll_time = s.last_poll_time := by
    cases g <;> rfl
  refine ⟨hcur, ?_⟩
  intro m t hm hts ht
  apply pollSeq_stale _ _ m t hts
  · rw [hcur]
    exact ht
  · intro e he
    exact le_trans ht (hends e he)

/-- Witness for C3: a reload loading one message at instant 2 into a script
whose cursor is 3 keeps the cursor at 3, and a poll at instant 5 does not
return that message. -/
theorem C3_reload_preserves_cursor_witness :
    ((Script.reload (.ok [.file 10 [some ⟨.Absolute 2, "a", "x"⟩]])
      { source_dir := "scripts", source_file_delimiter := 124,
        messages := [], last_poll_time := 3 }).2.last_poll_time = 3) ∧
    (⟨.Absolute 2, "a", "x"⟩ : Message) ∉
      ((Script.reload (.ok [.file 10 [some ⟨.Absolute 2, "a", "x"⟩]])
        { source_dir := "scripts", source_file_delimiter := 124,
          messages := [], last_poll_time := 3 }).2.poll 5).1 := by
  have h := C3_reload_preserves_cursor
    { source_dir := "scripts", source_file_delimiter := 124,
      messages := [], last_poll_time := 3 }
    (.ok [.file 10 [some ⟨.Absolute 2, "a", "x"⟩]]) [5] (by decide)
  have hmsg : (Script.reload (.ok [.file 10 [some ⟨.Absolute 2, "a", "x"⟩]])
      { source_dir := "scripts", source_file_delimiter := 124,
        messages := [], last_poll_time := 3 }).2.messages =
      [⟨.Absolute 2, "a", "x"⟩] := by
    rw [reload_ok_messages]
    have hl : loadedMessages [.file 10 [some ⟨.Absolute 2, "a", "x"⟩]] =
        [⟨.Absolute 2, "a", "x"⟩] := rfl
    rw [hl, List.mergeSort_singleton]
  refine ⟨h.1, h.2 ⟨.Absolute 2, "a", "x"⟩ 2 ?_ rfl (by decide) _ ?_⟩
  · rw [hmsg]
    exact List.mem_singleton.mpr rfl
  · exact List.mem_cons_self _ _

/-- Claim C4: timestamps are resolved sequentially with a running reference
instant: a `Relative d` row resolves to the reference plus `d` and the
reference becomes that result (so a chain of relative rows after reference
`t0` resolves to the cumulative sums); an `Absolute t` row resets the
reference to `t`; and when every file of a reload is loaded at the reload
start instant `t0` (the clock does not advance during the reload), every
file's resolution starts from the reference `t0`. -/
theorem C4_timestamp_resolution (t0 : Int) :
    (∀ ref (m : Message) rows d, m.timestamp = .Relative d →
      load_messages ref (some m :: rows) =
        { m with timestamp := .Absolute (ref + d) } ::
          load_messages (ref + d) rows) ∧
    (∀ ref (m : Message) rows t, m.timestamp = .Absolute t →
      load_messages ref (some m :: rows) = m :: load_messages t rows) ∧
    (∀ (ms : List Message) (ds : List Int),
      ms.map Message.timestamp = ds.map Timestamp.Relative →
      (load_messages t0 (ms.map some)).map Message.timestamp =
        (cumulativeTimes t0 ds).map Timestamp.Absolute) ∧
    (∀ files : List (List (Option Message)),
      loadedMessages (files.map (GlobEntry.file t0)) =
        (files.map (load_messages t0)).flatten) := by
  have hmap : ∀ (u0 : Int) (ms : List Message),
      load_messages u0 (ms.map some) = resolveAll u0 ms := by
    intro u0 ms
    simp [load_messages]
  refine ⟨?_, ?_, ?_, ?_⟩
  · intro ref m rows d h
    simp [load_messages, List.filterMap_cons, resolveAll_cons, resolveStep, h]
  · intro ref m rows t h
    simp [load_messages, List.filterMap_cons, resolveAll_cons, resolveStep, h]
  · intro ms
    induction ms generalizing t0 with
    | nil =>
        intro ds h
        rw [List.map_nil] at h
        rcases List.map_eq_nil_iff.mp h.symm with rfl
        rfl
    | cons x xs ih =>
        intro ds h
        cases ds with
        | nil => cases h
        | cons d rest =>
            rw [List.map_cons, List.map_cons] at h
            have hx : x.timestamp = .Relative d := (List.cons_eq_cons.mp h).1
            have hxs : xs.map Message.timestamp = rest.map Timestamp.Relative :=
              (List.cons_eq_cons.mp h).2
            rw [hmap t0 (x :: xs), resolveAll_cons]
            show ((resolveStep t0 x).1.timestamp) ::
              (resolveAll (resolveStep t0 x).2 xs).map Message.timestamp = _
            rw [← hmap (resolveStep t0 x).2 xs]
            have hstep : resolveStep t0 x =
                ({ x with timestamp := .Absolute (t0 + d) }, t0 + d) := by
              simp [resolveStep, hx]
            rw [hstep]
            show Timestamp.Absolute (t0 + d) :: _ = _
            rw [ih (t0 + d) rest hxs]
            rfl
  · intro files
    induction files with
    | nil => rfl
    | cons f fs ih =>
        simp only [List.map_cons, loadedMessages, List.filterMap_cons, loadEntry,
          List.flatten_cons] at *
        rw [← ih]

/-- Witness for C4: two relative rows with offsets 2 and 3 after reference 100
resolve cumulatively to instants 102 and 105. -/
theorem C4_timestamp_resolution_witness :
    (load_messages 100 (([⟨.Relative 2, "a", "x"⟩, ⟨.Relative 3, "b", "y"⟩] :
      List Message).map some)).map Message.timestamp =
      [.Absolute 102, .Absolute 105] :=
  ((C4_timestamp_resolution 100).2.2.1
    [⟨.Relative 2, "a", "x"⟩, ⟨.Relative 3, "b", "y"⟩] [2, 3] rfl).trans (by decide)

/-- Claim C5: timestamp resolution tries the formats in a fixed order with
first match winning: the internet-date parser (RFC2822) first, then the
ISO-style parser (RFC3339), then a bare signed integer as relative seconds;
the first two yield `Absolute`, the third `Relative`, and the result is an
error exactly when all three parses fail. -/
theorem C5_timestamp_format_order (p2822 p3339 pint : String → Option Int)
    (s : String) :
    (∀ t, p2822 s = some t →
      Timestamp.from_str p2822 p3339 pint s = .ok (.Absolute t)) ∧
    (p2822 s = none → ∀ t, p3339 s = some t →
      Timestamp.from_str p2822 p3339 pint s = .ok (.Absolute t)) ∧
    (p2822 s = none → p3339 s = none → ∀ n, pint s = some n →
      Timestamp.from_str p2822 p3339 pint s = .ok (.Relative n)) ∧
    ((∃ e, Timestamp.from_str p2822 p3339 pint s = .error e) ↔
      (p2822 s = none ∧ p3339 s = none ∧ pint s = none)) := by
  refine ⟨?_, ?_, ?_, ?_⟩
  · intro t h
    simp [Timestamp.from_str, h]
  · intro h1 t h
    simp [Timestamp.from_str, h1, h]
  · intro h1 h2 n h
    simp [Timestamp.from_str, h1, h2, h]
  · cases h1 : p2822 s <;> cases h2 : p3339 s <;> cases h3 : pint s <;>
      simp [Timestamp.from_str, h1, h2, h3]

/-- Witness for C5 with concrete parser oracles on which only the RFC3339
parser recognises the input: the result is the corresponding absolute
timestamp. -/
theorem C5_timestamp_format_order_witness :
    Timestamp.from_str
      (fun str => if str = "rfc2822-input" then some 1 else none)
      (fun str => if str = "rfc3339-input" then some 2 else none)
      (fun str => if str = "17" then some 17 else none)
      "rfc3339-input" = .ok (.Absolute 2) :=
  (C5_timestamp_format_order
      (fun str => if str = "rfc2822-input" then some 1 else none)
      (fun str => if str = "rfc3339-input" then some 2 else none)
      (fun str => if str = "17" then some 17 else none)
      "rfc3339-input").2.1 (by decide) 2 (by decide)

/-- Claim C6: after a reload that completes successfully, every message of the
`messages` sequence carries an `Absolute` timestamp; the sequence is the stable
sort of the loaded messages, ascending by absolute timestamp; it is a
permutation of the loaded messages; and any pair tied under the comparator
(equal instants, or any pair lacking comparable absolute timestamps, which the
comparator treats as tied) retains its encounter order. -/
theorem C6_reload_sorted (s : Script) (entries : List GlobEntry) :
    (∀ m ∈ (Script.reload (.ok entries) s).2.messages,
      ∃ t, m.timestamp = .Absolute t) ∧
    ascendingByTs (Script.reload (.ok entries) s).2.messages ∧
    ((Script.reload (.ok entries) s).2.messages).Perm (loadedMessages entries) ∧
    (∀ a b, msgCmp a b = .eq → List.Sublist [a, b] (loadedMessages entries) →
      List.Sublist [a, b] (Script.reload (.ok entries) s).2.messages) := by
  have habs := loadedMessages_all_absolute entries
  have hkey := mergeSort_msgLe_eq_keyLe (loadedMessages entries) habs
  refine ⟨?_, ?_, ?_, ?_⟩
  · intro m hm
    rw [reload_ok_messages] at hm
    exact habs m (List.mem_mergeSort.mp hm)
  · rw [reload_ok_messages, hkey]
    have hsorted := List.sorted_mergeSort keyLe_trans keyLe_total
      (loadedMessages entries)
    refine List.Pairwise.imp ?_ hsorted
    intro a b hle ta tb hta htb
    simp only [keyLe, absKey, hta, htb, decide_eq_true_eq] at hle
    exact hle
  · rw [reload_ok_messages]
    exact List.mergeSort_perm _ _
  · intro a b hcmp hsub
    rw [reload_ok_messages, hkey]
    have ha : a ∈ loadedMessages entries := hsub.subset (by simp)
    have hb : b ∈ loadedMessages entries := hsub.subset (by simp)
    rcases habs a ha with ⟨ta, hta⟩
    rcases habs b hb with ⟨tb, htb⟩
    have hab : keyLe a b := by
      have hcmp2 : compare ta tb = .eq := by
        unfold msgCmp at hcmp
        rw [hta, htb] at hcmp
        exact hcmp
      have hteq : ta = tb := compare_eq_iff_eq.mp hcmp2
      simp [keyLe, absKey, hta, htb, hteq, le_refl]
    exact List.pair_sublist_mergeSort keyLe_trans keyLe_total hab hsub

/-- Witness for C6: a reload of one file holding a relative row of offset 5
after reference 0 and an absolute row at instant 5 yields two tied messages
whose encounter order is retained in the sorted timeline. -/
theorem C6_reload_sorted_witness :
    List.Sublist [(⟨.Absolute 5, "a", "1"⟩ : Message), ⟨.Absolute 5, "b", "2"⟩]
      (Script.reload
        (.ok [.file 0 [some ⟨.Relative 5, "a", "1"⟩, some ⟨.Absolute 5, "b", "2"⟩]])
        { source_dir := "scripts", source_file_delimiter := 124,
          messages := [], last_poll_time := 0 }).2.messages := by
  have h := C6_reload_sorted
    { source_dir := "scripts", source_file_delimiter := 124,
      messages := [], last_poll_time := 0 }
    [.file 0 [some ⟨.Relative 5, "a", "1"⟩, some ⟨.Absolute 5, "b", "2"⟩]]
  refine h.2.2.2 ⟨.Absolute 5, "a", "1"⟩ ⟨.Absolute 5, "b", "2"⟩ (by decide) ?_
  have hl : loadedMessages
      [.file 0 [some ⟨.Relative 5, "a", "1"⟩, some ⟨.Absolute 5, "b", "2"⟩]] =
      [⟨.Absolute 5, "a", "1"⟩, ⟨.Absolute 5, "b", "2"⟩] := rfl
  rw [hl]

/-- Counterexample to claim C7 as stated: an unreadable root directory shows
up as glob iteration errors, which `Script::reload` skips (`Err(_) => None`,
src/script.rs line 168). At the concrete script holding one message, a reload
whose glob iteration yields only a path error returns `Ok`, clears the
timeline, and does not retain the previous `messages` — it neither errors nor
preserves the timeline. -/
theorem C7_unreadable_root_counterexample :
    ((Script.reload (.ok [.errPath])
      { source_dir := "scripts", source_file_delimiter := 124,
        messages := [⟨.Absolute 1, "a", "x"⟩], last_poll_time := 0 }).1
          = .ok ()) ∧
    ((Script.reload (.ok [.errPath])
      { source_dir := "scripts", source_file_delimiter := 124,
        messages := [⟨.Absolute 1, "a", "x"⟩], last_poll_time := 0 }).2.messages
          = []) ∧
    ((Script.reload (.ok [.errPath])
      { source_dir := "scripts", source_file_delimiter := 124,
        messages := [⟨.Absolute 1, "a", "x"⟩], last_poll_time := 0 }).2.messages
      ≠
      ({ source_dir := "scripts", source_file_delimiter := 124,
         messages := [⟨.Absolute 1, "a", "x"⟩],
         last_poll_time := 0 } : Script).messages) := by
  have hmsg : (Script.reload (.ok [.errPath])
      { source_dir := "scripts", source_file_delimiter := 124,
        messages := [⟨.Absolute 1, "a", "x"⟩], last_poll_time := 0 }).2.messages
        = [] := by
    rw [reload_ok_messages]
    rw [show loadedMessages [GlobEntry.errPath] = [] from rfl]
    rw [List.mergeSort_nil]
  refine ⟨rfl, hmsg, ?_⟩
  rw [hmsg]
  simp

/-- Claim C7 (amended): glob iteration errors — the way an unreadable root
directory manifests — are skipped, so reload completes with `Ok` and replaces
the previous timeline, clearing it when no entry is loadable; reload returns
an error only when the glob call itself fails (an invalid pattern), and
whenever reload returns an error the previous messages timeline is retained
completely unchanged, with no partial replacement of any field. -/
theorem C7_reload_error_semantics (s : Script)
    (g : Except String (List GlobEntry)) :
    (∀ entries, g = .ok entries → (Script.reload g s).1 = .ok ()) ∧
    (∀ entries, g = .ok entries → (∀ e ∈ entries, loadEntry e = none) →
      (Script.reload g s).2.messages = []) ∧
    (∀ e, g = .error e → Script.reload g s = (.error e, s)) ∧
    (∀ e, (Script.reload g s).1 = .error e →
      (Script.reload g s).2 = s ∧ (Script.reload g s).2.messages = s.messages) := by
  refine ⟨?_, ?_, ?_, ?_⟩
  · rintro entries rfl
    rfl
  · rintro entries rfl hall
    rw [reload_ok_messages]
    have hempty : loadedMessages entries = [] := by
      have hfm : entries.filterMap loadEntry = [] := by
        rw [List.filterMap_eq_nil_iff]
        exact hall
      rw [loadedMessages, hfm]
      rfl
    rw [hempty, List.mergeSort_nil]
  · rintro e rfl
    rfl
  · intro e h
    cases g with
    | error e2 => exact ⟨rfl, rfl⟩
    | ok entries =>
        exact absurd h (by simp [Script.reload])

/-- Witness for the amended C7: a reload whose entries are all skipped ends
with an empty timeline, and a reload whose glob call fails with a concrete
error returns that error with the concrete script untouched. -/
theorem C7_reload_error_semantics_witness :
    ((Script.reload (.ok [.errPath, .openFail])
      { source_dir := "scripts", source_file_delimiter := 124,
        messages := [⟨.Absolute 1, "a", "x"⟩], last_poll_time := 0 }).2.messages
        = []) ∧
    Script.reload (.error "bad pattern")
      { source_dir := "scripts", source_file_delimiter := 124,
        messages := [⟨.Absolute 1, "a", "x"⟩], last_poll_time := 0 } =
      (.error "bad pattern",
       { source_dir := "scripts", source_file_delimiter := 124,
         messages := [⟨.Absolute 1, "a", "x"⟩], last_poll_time := 0 }) :=
  ⟨(C7_reload_error_semantics
      { source_dir := "scripts", source_file_delimiter := 124,
        messages := [⟨.Absolute 1, "a", "x"⟩], last_poll_time := 0 }
      (.ok [.errPath, .openFail])).2.1 [.errPath, .openFail] rfl (by decide),
   (C7_reload_error_semantics
      { source_dir := "scripts", source_file_delimiter := 124,
        messages := [⟨.Absolute 1, "a", "x"⟩], last_poll_time := 0 }
      (.error "bad pattern")).2.2.1 "bad pattern" rfl⟩

/-! ### Lemmas about the reconnect loop -/

theorem tryReconnectLoop_fail (outcome : Nat → Bool) (l : List Nat)
    (h : ∀ j ∈ l, outcome j = false) :
    tryReconnectLoop outcome l =
      (l.flatMap (fun j => [.reconnectAttempt j, .sleepSeconds 1]), false) := by
  induction l with
  | nil => rfl
  | cons i rest ih =>
      have hi : outcome i = false := h i (by simp)
      have hrest := ih (fun j hj => h j (by simp [hj]))
      simp [tryReconnectLoop, hi, hrest]

theorem tryReconnectLoop_success (outcome : Nat → Bool) (l1 l2 : List Nat)
    (i : Nat) (h1 : ∀ j ∈ l1, outcome j = false) (hi : outcome i = true) :
    tryReconnectLoop outcome (l1 ++ i :: l2) =
      (l1.flatMap (fun j => [.reconnectAttempt j, .sleepSeconds 1]) ++
        [.reconnectAttempt i], true) := by
  induction l1 with
  | nil => simp [tryReconnectLoop, hi]
  | cons j rest ih =>
      have hj : outcome j = false := h1 j (by simp)
      have hrest := ih (fun k hk => h1 k (by simp [hk]))
      simp [tryReconnectLoop, hj, hrest]

theorem tryReconnectLoop_no_publish_no_exit (outcome : Nat → Bool)
    (l : List Nat) :
    ∀ a ∈ (tryReconnectLoop outcome l).1, isPublish a = false ∧ a ≠ .sendExit := by
  induction l with
  | nil =>
      intro a ha
      cases ha
  | cons i rest ih =>
      intro a ha
      by_cases hi : outcome i = true
      · simp only [tryReconnectLoop, hi, if_true] at ha
        rcases List.mem_singleton.mp ha with rfl
        exact ⟨rfl, by simp⟩
      · simp only [tryReconnectLoop, hi, if_false, Bool.false_eq_true] at ha
        rcases List.mem_cons.mp ha with rfl | ha2
        · exact ⟨rfl, by simp⟩
        · rcases List.mem_cons.mp ha2 with rfl | ha3
          · exact ⟨rfl, by simp⟩
          · exact ih a ha3

theorem tryReconnectLoop_snd (outcome : Nat → Bool) (l : List Nat) :
    (tryReconnectLoop outcome l).2 = l.any outcome := by
  induction l with
  | nil => rfl
  | cons i rest ih =>
      by_cases hi : outcome i = true
      · simp [tryReconnectLoop, hi]
      · simp only [Bool.not_eq_true] at hi
        simp [tryReconnectLoop, hi, ih]

theorem tryReconnectLoop_attempt_count (outcome : Nat → Bool) (l : List Nat) :
    ((tryReconnectLoop outcome l).1.filter isReconnect).length ≤ l.length := by
  induction l with
  | nil => simp [tryReconnectLoop]
  | cons i rest ih =>
      by_cases hi : outcome i = true
      · simp [tryReconnectLoop, hi, isReconnect]
      · simp only [Bool.not_eq_true] at hi
        simp [tryReconnectLoop, hi, isReconnect]
        omega

theorem range_decompose (n i : Nat) (h : i < n) :
    ∃ l2, List.range n = List.range i ++ i :: l2 := by
  induction n with
  | zero => omega
  | succ m ih =>
      rcases Nat.lt_succ_iff_lt_or_eq.mp h with h2 | rfl
      · rcases ih h2 with ⟨l2, hl⟩
        refine ⟨l2 ++ [m], ?_⟩
        rw [List.range_succ, hl]
        simp
      · refine ⟨[], ?_⟩
        rw [List.range_succ]

theorem handleSend_queueFailed (outcome : Nat → Bool) (topic payload : String) :
    handleSend .queueFailed outcome topic payload =
      .publishAttempt topic payload ::
        ((try_reconnect outcome).1 ++
          (if (try_reconnect outcome).2 then [] else [.sendExit])) := rfl

/-- Claim C8: on a publish failure (the `try_publish` error branch) the
publisher runs a reconnect sequence of at most ten attempts, each failed
attempt followed by the fixed one-second sleep; `Exit` is broadcast exactly
when all attempts in the budget fail; and when attempt `i` is the first to
succeed the emitted actions are the single original publish attempt followed
by the attempt/sleep trace up to `i` — the failed message is never published
again, no `Exit` is broadcast, and the receive loop continues. -/
theorem C8_publisher_reconnect (outcome : Nat → Bool) (topic payload : String) :
    (((handleSend .queueFailed outcome topic payload).filter isReconnect).length
        ≤ 10) ∧
    (Action.sendExit ∈ handleSend .queueFailed outcome topic payload ↔
      ∀ i < 10, outcome i = false) ∧
    (((handleSend .queueFailed outcome topic payload).filter isPublish).length
        = 1) ∧
    (∀ i, i < 10 → (∀ j < i, outcome j = false) → outcome i = true →
      handleSend .queueFailed outcome topic payload =
        .publishAttempt topic payload ::
          ((List.range i).flatMap
            (fun j => [.reconnectAttempt j, .sleepSeconds 1]) ++
            [.reconnectAttempt i]) ∧
      Action.sendExit ∉ handleSend .queueFailed outcome topic payload) ∧
    ((∀ i < 10, outcome i = false) →
      handleSend .queueFailed outcome topic payload =
        .publishAttempt topic payload ::
          ((List.range 10).flatMap
            (fun j => [.reconnectAttempt j, .sleepSeconds 1]) ++
            [.sendExit])) ∧
    (∀ m : Message, (runStep .queueFailed outcome (.SendMessage m)).2 = true) := by
  have hne := tryReconnectLoop_no_publish_no_exit outcome (List.range 10)
  have hsnd := tryReconnectLoop_snd outcome (List.range 10)
  refine ⟨?_, ?_, ?_, ?_, ?_, ?_⟩
  · rw [handleSend_queueFailed, try_reconnect]
    have h1 := tryReconnectLoop_attempt_count outcome (List.range 10)
    simp only [List.length_range] at h1
    have h2 : ((if (tryReconnectLoop outcome (List.range 10)).2
        then ([] : List Action)
        else [.sendExit]).filter isReconnect).length = 0 := by
      by_cases hb : (tryReconnectLoop outcome (List.range 10)).2 = true <;>
        simp [hb, isReconnect]
    have hpub : isReconnect (Action.publishAttempt topic payload) = false := rfl
    rw [List.filter_cons, hpub]
    simp only [Bool.false_eq_true, if_false, List.filter_append,
      List.length_append, h2]
    omega
  · rw [handleSend_queueFailed, try_reconnect]
    rw [List.mem_cons, List.mem_append]
    constructor
    · rintro (h | h | h)
      · cases h
      · exact absurd rfl (hne _ h).2
      · by_cases hb : (tryReconnectLoop outcome (List.range 10)).2 = true
        · rw [if_pos hb] at h
          cases h
        · intro i hi
          simp only [Bool.not_eq_true] at hb
          rw [tryReconnectLoop_snd] at hb
          have hall := List.any_eq_false.mp hb
          have := hall i (List.mem_range.mpr hi)
          simpa using this
    · intro hall
      have hb : (tryReconnectLoop outcome (List.range 10)).2 = false := by
        rw [tryReconnectLoop_snd]
        rw [List.any_eq_false]
        intro i hi
        simp [hall i (List.mem_range.mp hi)]
      rw [hb]
      simp
  · rw [handleSend_queueFailed, try_reconnect]
    have h1 : ((tryReconnectLoop outcome (List.range 10)).1.filter isPublish)
        = [] := by
      rw [List.filter_eq_nil_iff]
      intro a ha
      rw [(hne a ha).1]
      simp
    have h2 : ((if (tryReconnectLoop outcome (List.range 10)).2
        then ([] : List Action)
        else [.sendExit]).filter isPublish) = [] := by
      by_cases hb : (tryReconnectLoop outcome (List.range 10)).2 = true <;>
        simp [hb, isPublish]
    have hpub : isPublish (Action.publishAttempt topic payload) = true := rfl
    rw [List.filter_cons, hpub]
    simp [List.filter_append, h1, h2]
  · intro i hi hbefore hsucc
    rcases range_decompose 10 i hi with ⟨l2, hl⟩
    have hloop := tryReconnectLoop_success outcome (List.range i) l2 i
      (fun j hj => hbefore j (List.mem_range.mp hj)) hsucc
    have hr : try_reconnect outcome =
        ((List.range i).flatMap (fun j => [.reconnectAttempt j, .sleepSeconds 1]) ++
          [.reconnectAttempt i], true) := by
      rw [try_reconnect, hl, hloop]
    constructor
    · rw [handleSend_queueFailed, hr]
      simp
    · rw [handleSend_queueFailed, hr]
      intro hmem
      simp at hmem
  · intro hall
    have hloop := tryReconnectLoop_fail outcome (List.range 10)
      (fun j hj => hall j (List.mem_range.mp hj))
    have hr : try_reconnect outcome =
        ((List.range 10).flatMap (fun j => [.reconnectAttempt j, .sleepSeconds 1]),
          false) := by
      rw [try_reconnect, hloop]
    rw [handleSend_queueFailed, hr]
    simp
  · intro m
    rfl

/-- Witness for C8 with an oracle whose first successful reconnection is
attempt 2: the emitted actions are the one publish attempt, the failed
attempts 0 and 1 each followed by the one-second sleep, then the successful
attempt 2, and no `Exit`. -/
theorem C8_publisher_reconnect_witness :
    handleSend .queueFailed (fun i => decide (i = 2)) "topic" "payload" =
      [.publishAttempt "topic" "payload",
       .reconnectAttempt 0, .sleepSeconds 1,
       .reconnectAttempt 1, .sleepSeconds 1,
       .reconnectAttempt 2] := by
  have h := (C8_publisher_reconnect (fun i => decide (i = 2)) "topic" "payload").2.2.2.1
    2 (by decide) (by decide) (by decide)
  rw [h.1]
  decide

/-- Claim C9: a row that fails to parse structurally or whose timestamp fails
resolution (a `none` row) is dropped while every remaining well-formed row in
the same file loads exactly as if the bad row were absent; and a file that
cannot be opened (or whose glob path errored) is skipped while the remaining
files load exactly as if it were absent, both in `loadedMessages` and in the
full reload. -/
theorem C9_bad_rows_and_files_skipped (t0 : Int) :
    (∀ rows1 rows2, load_messages t0 (rows1 ++ none :: rows2) =
      load_messages t0 (rows1 ++ rows2)) ∧
    (∀ entries1 entries2 entry, loadEntry entry = none →
      loadedMessages (entries1 ++ entry :: entries2) =
        loadedMessages (entries1 ++ entries2)) ∧
    (∀ (s : Script) entries1 entries2 entry, loadEntry entry = none →
      Script.reload (.ok (entries1 ++ entry :: entries2)) s =
        Script.reload (.ok (entries1 ++ entries2)) s) := by
  have h2 : ∀ entries1 entries2 entry, loadEntry entry = none →
      loadedMessages (entries1 ++ entry :: entries2) =
        loadedMessages (entries1 ++ entries2) := by
    intro entries1 entries2 entry h
    simp [loadedMessages, List.filterMap_append, List.filterMap_cons, h]
  refine ⟨?_, h2, ?_⟩
  · intro rows1 rows2
    simp [load_messages, List.filterMap_append, List.filterMap_cons]
  · intro s entries1 entries2 entry h
    simp only [Script.reload, h2 entries1 entries2 entry h]

/-- Witness for C9: a file list holding one good file, an unopenable file and
one failing row loads exactly the two good rows. -/
theorem C9_bad_rows_and_files_skipped_witness :
    loadedMessages
      ([GlobEntry.file 0 [some ⟨.Absolute 1, "a", "x"⟩, none]] ++
        GlobEntry.openFail :: [GlobEntry.file 0 [some ⟨.Absolute 2, "b", "y"⟩]]) =
      loadedMessages
        ([GlobEntry.file 0 [some ⟨.Absolute 1, "a", "x"⟩, none]] ++
          [GlobEntry.file 0 [some ⟨.Absolute 2, "b", "y"⟩]]) ∧
    loadedMessages
      ([GlobEntry.file 0 [some ⟨.Absolute 1, "a", "x"⟩, none]] ++
        [GlobEntry.file 0 [some ⟨.Absolute 2, "b", "y"⟩]]) =
      [⟨.Absolute 1, "a", "x"⟩, ⟨.Absolute 2, "b", "y"⟩] :=
  ⟨(C9_bad_rows_and_files_skipped 0).2.1
      [GlobEntry.file 0 [some ⟨.Absolute 1, "a", "x"⟩, none]]
      [GlobEntry.file 0 [some ⟨.Absolute 2, "b", "y"⟩]]
      GlobEntry.openFail rfl,
    by decide⟩

end MqttActor
